import Mathlib

/-!
Verification of the eurusd-quant-engine core against its specification.

The development shallowly embeds the Python sources:
* `src/execution_live/intent_sink.py`   (`FileIntentSink`)
* `src/execution_live/intent_schema.py` (`ExecutionIntent`)
* `src/execution_live/intent_serializer.py` (`serialize_intent`)
* `src/hypotheses/base.py`              (`TradeIntent`, `Hypothesis` wrapper/hook)
* `src/hypotheses/competition/competition_hail_mary.py` (`CompetitionHailMary`)

Machine reals (Python floats / numpy arrays) are embedded as rationals,
Python dicts and directories as functions to `Option`, and fallible Python
calls as `Except String`.
-/

namespace IntentSink

/-- The three lifecycle areas created by `FileIntentSink.__init__`
(`self.pending`, `self.done`, `self.failed`). -/
inductive QueueArea
  | pending
  | done
  | failed
deriving DecidableEq

/-- A path under the queue root: an area directory plus a file name,
modelling `self.pending / name` path construction. -/
structure SinkPath where
  area : QueueArea
  name : String
deriving DecidableEq

/-- Contents of the `pending` directory: a map from file name to file
content (`none` = no such file). -/
abbrev PendingDir := String → Option String

/-- `Path.write_text`: create or overwrite the file named `n` with content `s`. -/
def fsWrite (d : PendingDir) (n s : String) : PendingDir :=
  fun m => if m = n then some s else d m

/-- `Path.rename old -> nw`: the old name disappears and the target name
receives the old name's content (POSIX rename replaces an existing target). -/
def fsRename (d : PendingDir) (old nw : String) : PendingDir :=
  fun m => if m = nw then d old else if m = old then none else d m

/-- `fname = f"..."` in `emit`: the uuid token (passed explicitly here, since
`uuid.uuid4()` is an external randomness source) plus the `.json` suffix. -/
def fname (u : String) : String := u ++ ".json"

/-- `tmp = self.pending / (fname + ".tmp")`: the temporary write location.
Note that it is constructed under `self.pending`. -/
def tmpName (u : String) : String := fname u ++ ".tmp"

/-- The full path of the temporary file: inside the `pending` area. -/
def tmpPath (u : String) : SinkPath := ⟨QueueArea.pending, tmpName u⟩

/-- The full path of the committed entry: inside the `pending` area. -/
def finalPath (u : String) : SinkPath := ⟨QueueArea.pending, fname u⟩

/-- State of `pending` after `tmp.write_text(intent_json)` but before
`tmp.rename(final)`: the state an interrupted `emit` leaves behind. -/
def emitMid (d : PendingDir) (u s : String) : PendingDir :=
  fsWrite d (tmpName u) s

/-- State of `pending` after `FileIntentSink.emit` returns:
write the temporary file, then rename it onto the final entry name. -/
def emit (d : PendingDir) (u s : String) : PendingDir :=
  fsRename (emitMid d u s) (tmpName u) (fname u)

/-- A well-formed queue entry name: some token followed by the fixed
`.json` suffix (the shape of every name `emit` commits). -/
def IsEntryName (n : String) : Prop := ∃ u, n = u ++ ".json"

end IntentSink

namespace IntentSerializer

/-- Model of `datetime.datetime` as stored in `ExecutionIntent.timestamp`:
a wall-clock value in microseconds plus the tzinfo UTC offset in minutes
(`none` = naive datetime, i.e. no tzinfo attached). -/
structure PyDatetime where
  wallMicros : ℕ
  utcOffsetMinutes : Option ℤ
deriving DecidableEq

/-- Decimal value of a digit character. -/
def digitVal (c : Char) : ℕ := c.toNat - 48

/-- Big-endian decimal digit characters of a natural number. -/
def natChars (n : ℕ) : List Char := (Nat.digits 10 n).reverse.map Nat.digitChar

/-- UTC-offset magnitude rendered as exactly four decimal digit characters. -/
def pad4Chars (m : ℕ) : List Char :=
  [Nat.digitChar (m / 1000 % 10), Nat.digitChar (m / 100 % 10),
   Nat.digitChar (m / 10 % 10), Nat.digitChar (m % 10)]

/-- Read back exactly four decimal digit characters. -/
def parse4 (cs : List Char) : ℕ :=
  match cs with
  | [a, b, c, d] => digitVal a * 1000 + digitVal b * 100 + digitVal c * 10 + digitVal d
  | _ => 0

/-- Model of `datetime.isoformat()` as called by `serialize_intent`: the
wall clock rendered in fixed decimal text, followed — exactly when the
datetime is timezone-aware — by an explicit `+HHMM` / `-HHMM` UTC-offset
suffix.  A naive datetime gets no timezone suffix (CPython behaviour). -/
def isoformat (d : PyDatetime) : String :=
  String.mk (natChars d.wallMicros ++
    match d.utcOffsetMinutes with
    | none => []
    | some o => (if o < 0 then '-' else '+') :: pad4Chars o.natAbs)

/-- The absolute instant denoted by a wall clock together with a UTC
offset, in microseconds. -/
def instantMicros (wall : ℕ) (offMin : ℤ) : ℤ := (wall : ℤ) - offMin * 60000000

/-- Decode the timestamp encoding back to an absolute instant.  Returns
`none` when the text carries no explicit UTC-offset suffix (as a generic
ISO parser must: a naive rendering fixes no instant). -/
def decodeIsoInstant (s : String) : Option ℤ :=
  (s.data.reverse)[4]?.bind (fun c =>
    if c = '+' ∨ c = '-' then
      some (instantMicros (Nat.ofDigits 10 ((s.data.reverse.drop 5).map digitVal))
        (if c = '-' then -(parse4 (s.data.reverse.take 4).reverse : ℤ)
         else (parse4 (s.data.reverse.take 4).reverse : ℤ)))
    else none)

/-- `Side = Literal["BUY", "SELL"]` (the stored value is the string itself). -/
inductive Side
  | BUY
  | SELL
deriving DecidableEq

/-- `OrderType = Literal["MARKET"]`. -/
inductive OrderType
  | MARKET
deriving DecidableEq

/-- `Mode = Literal["PAPER", "LIVE"]`. -/
inductive Mode
  | PAPER
  | LIVE
deriving DecidableEq

def Side.toStr : Side → String
  | .BUY => "BUY"
  | .SELL => "SELL"

def OrderType.toStr : OrderType → String
  | .MARKET => "MARKET"

def Mode.toStr : Mode → String
  | .PAPER => "PAPER"
  | .LIVE => "LIVE"

/-- `@dataclass(frozen=True) class ExecutionIntent` from `intent_schema.py`,
with Python floats embedded as rationals. -/
structure ExecutionIntent where
  intent_id : String
  timestamp : PyDatetime
  symbol : String
  side : Side
  order_type : OrderType
  quantity : ℚ
  stop_loss : Option ℚ
  take_profit : Option ℚ
  time_in_force : String
  policy_hash : String
  mode : Mode

/-- JSON values of the fragment `serialize_intent` actually emits: the
dict passed to `json.dumps` maps field names to strings, floats or None. -/
inductive JVal
  | null
  | num (q : ℚ)
  | str (s : String)
deriving DecidableEq

/-- A JSON object as an ordered association list (Python dicts preserve
insertion order, and `json.dumps` serializes in that order). -/
abbrev JObj := List (String × JVal)

/-- An optional float field: `None` becomes the JSON null marker. -/
def optNum : Option ℚ → JVal
  | none => JVal.null
  | some q => JVal.num q

/-- `asdict(intent)` (dataclass field order) with the timestamp replaced by
`timestamp.isoformat()`, exactly as `serialize_intent` builds the dict it
hands to `json.dumps`. -/
def intentDict (i : ExecutionIntent) : JObj :=
  [("intent_id", JVal.str i.intent_id),
   ("timestamp", JVal.str (isoformat i.timestamp)),
   ("symbol", JVal.str i.symbol),
   ("side", JVal.str i.side.toStr),
   ("order_type", JVal.str i.order_type.toStr),
   ("quantity", JVal.num i.quantity),
   ("stop_loss", optNum i.stop_loss),
   ("take_profit", optNum i.take_profit),
   ("time_in_force", JVal.str i.time_in_force),
   ("policy_hash", JVal.str i.policy_hash),
   ("mode", JVal.str i.mode.toStr)]

/-- The ordered key list of a JSON object. -/
def jobjKeys (o : JObj) : List String := o.map Prod.fst

/-- Lookup of a field in a JSON object (first occurrence). -/
def jobjLookup (o : JObj) (k : String) : Option JVal :=
  (o.find? (fun p => p.1 == k)).map Prod.snd

/-- A JSON string literal (escaping of control characters, which cannot
occur in the fields at hand, is elided). -/
def renderStr (s : String) : String := "\"" ++ s ++ "\""

def renderJVal : JVal → String
  | .null => "null"
  | .num q => toString q
  | .str s => renderStr s

/-- `json.dumps(data, separators=(",", ":"))` on the (flat) intent dict:
compact rendering, fields in dict insertion order. -/
def serialize_intent (i : ExecutionIntent) : String :=
  "\x7b" ++
    String.intercalate ","
      ((intentDict i).map (fun p => renderStr p.1 ++ ":" ++ renderJVal p.2)) ++
    "\x7d"

end IntentSerializer

namespace Hypotheses

/-- `IntentType` enum from `hypotheses/base.py`. -/
inductive IntentType
  | BUY
  | SELL
  | CLOSE
  | HOLD
deriving DecidableEq

/-- `TradeIntent` pydantic model: an intent type plus a size (float,
default 1.0).  The pydantic configuration (`frozen=True`, `gt=0.0`) is
modelled by `model_config_frozen` and the validating constructor
`TradeIntent.create` below. -/
structure TradeIntent where
  type : IntentType
  size : ℚ
deriving DecidableEq

/-- `model_config = ConfigDict(frozen=True)`. -/
def model_config_frozen : Bool := true

/-- pydantic validation at construction, `size: float = Field(default=1.0,
gt=0.0)`: constructing with a non-positive size raises a ValidationError
(modelled as `none`). -/
def TradeIntent.create (ty : IntentType) (size : ℚ) : Option TradeIntent :=
  if 0 < size then some ⟨ty, size⟩ else none

/-- Attribute assignment `t.type = v` on a pydantic model: raises a
ValidationError when the model config is frozen. -/
def TradeIntent.setType (t : TradeIntent) (v : IntentType) : Except String TradeIntent :=
  if model_config_frozen then Except.error "Instance is frozen"
  else Except.ok { t with type := v }

/-- Attribute assignment `t.size = v` on a pydantic model: raises a
ValidationError when the model config is frozen. -/
def TradeIntent.setSize (t : TradeIntent) (v : ℚ) : Except String TradeIntent :=
  if model_config_frozen then Except.error "Instance is frozen"
  else Except.ok { t with size := v }

/-- `TradeIntent.is_hold`. -/
def TradeIntent.is_hold (t : TradeIntent) : Bool :=
  decide (t.type = IntentType.HOLD)

/-- A market bar (collaborator interface: open/high/low/close plus
timestamp and symbol).  `tsStr` is the diagnostic hook's timestamp
rendering (`timestamp.isoformat()` if the attribute exists, else
`str(timestamp)`): a call on an arbitrary object, which may raise. -/
structure Bar where
  open_ : ℚ
  high : ℚ
  low : ℚ
  close : ℚ
  symbol : String
  tsStr : Except String String

/-- Read-only market snapshot collaborator (`state.market_state`):
`bar_count()`, `recent_bars(n)` (`none` models an absent result) and
`current_bar()` (which may raise — the hook guards that call). -/
structure MarketState where
  bar_count : ℕ
  recent_bars : ℕ → Option (List Bar)
  current_bar : Except String Bar

/-- Read-only position snapshot collaborator (not consulted by the
embedded code paths; carried for signature fidelity). -/
structure PositionState where
  size : ℚ

/-- Clock collaborator (not consulted by the embedded code paths). -/
structure Clock where
  now : ℤ

/-- The instance attributes `_log_signal_intent` probes on `self`
(`getattr(self, "explain_decisions", False)`). -/
structure HypSelf where
  explain_decisions : Bool

/-- `Hypothesis._log_signal_intent`, the post-decision diagnostic hook.
Only the `market_state.current_bar()` call sits inside `try/except`; the
later timestamp rendering (`timestamp.isoformat()`) is unguarded, so an
error it raises escapes the hook.  The `getattr` probes with defaults and
`logger.info` (whose handler errors CPython logging routes to
`Handler.handleError` instead of raising) are total and modelled as pure. -/
def log_signal_intent (self : HypSelf) (intent : Option TradeIntent)
    (ms : MarketState) : Except String Unit :=
  if !self.explain_decisions then Except.ok ()
  else
    match intent with
    | none => Except.ok ()
    | some i =>
      if i.is_hold then Except.ok ()
      else
        match ms.current_bar with
        | Except.error _ => Except.ok ()
        | Except.ok bar =>
          match bar.tsStr with
          | Except.error e => Except.error e
          | Except.ok _ => Except.ok ()

/-- The `wrapped` closure installed over `on_bar` by
`Hypothesis.__init_subclass__`: run the inner decision function, then the
diagnostic hook, then return the inner decision.  The wrapper itself has
no `try/except`. -/
def wrapped_on_bar (self : HypSelf) (inner : Except String (Option TradeIntent))
    (ms : MarketState) : Except String (Option TradeIntent) :=
  match inner with
  | Except.error e => Except.error e
  | Except.ok intent =>
    match log_signal_intent self intent ms with
    | Except.error e => Except.error e
    | Except.ok _ => Except.ok intent

end Hypotheses

namespace CompetitionHailMary

open Hypotheses

/-- `CompetitionHailMary.__init__` configuration.  The period parameters
are Python ints with positive defaults, embedded as naturals; thresholds
and multipliers are floats, embedded as rationals. -/
structure Config where
  lookback : ℕ := 14
  atr_mult : ℚ := 1
  min_body_ratio : ℚ := 35 / 100
  fast_period : ℕ := 5
  slow_period : ℕ := 13
  roc_period : ℕ := 3
  roc_threshold : ℚ := 1 / 1000
  rsi_period : ℕ := 7
  rsi_oversold : ℚ := 20
  rsi_overbought : ℚ := 80

/-- Python negative indexing `a[-k]` on arrays the code only indexes
within bounds (`k ≤ length` in every embedded use; Python raises
otherwise, which never happens on the embedded paths). -/
def idxNeg (xs : List ℚ) (k : ℕ) : ℚ := xs.getD (xs.length - k) 0

/-- `np.ndarray.mean()` over rationals (numpy yields nan on an empty
slice, which — like every division by zero below — the rational embedding
renders as 0; no embedded claim depends on that value). -/
def mean (xs : List ℚ) : ℚ := xs.sum / (xs.length : ℚ)

/-- `CompetitionHailMary._ema`: `ema[0] = data[0]` and
`ema[i] = alpha * data[i] + (1 - alpha) * ema[i-1]` with
`alpha = 2 / (period + 1)`.  (Python raises on an empty array; the
embedded calls always pass non-empty data.) -/
def ema (data : List ℚ) (period : ℕ) : List ℚ :=
  match data with
  | [] => []
  | d :: ds =>
    ds.scanl (fun prev x =>
      (2 / ((period : ℚ) + 1)) * x + (1 - 2 / ((period : ℚ) + 1)) * prev) d

/-- `np.diff`: consecutive differences. -/
def diff (xs : List ℚ) : List ℚ := List.zipWith (fun a b => b - a) xs xs.tail

/-- `CompetitionHailMary._calculate_rsi` (Wilder's smoothing).  The two
running averages are folded over the post-warmup gains and losses exactly
as the Python loop updates them. -/
def calculate_rsi (cfg : Config) (closes : List ℚ) : ℚ :=
  let deltas := diff closes
  let gains := deltas.map (fun d => if 0 < d then d else 0)
  let losses := deltas.map (fun d => if d < 0 then -d else 0)
  if gains.length < cfg.rsi_period then 50
  else
    let avg_gain := (gains.drop cfg.rsi_period).foldl
      (fun avg g => (avg * ((cfg.rsi_period : ℚ) - 1) + g) / (cfg.rsi_period : ℚ))
      (mean (gains.take cfg.rsi_period))
    let avg_loss := (losses.drop cfg.rsi_period).foldl
      (fun avg g => (avg * ((cfg.rsi_period : ℚ) - 1) + g) / (cfg.rsi_period : ℚ))
      (mean (losses.take cfg.rsi_period))
    if avg_loss = 0 then 100
    else 100 - 100 / (1 + avg_gain / avg_loss)

/-- `np.roll(a, 1)`: rotate right by one position. -/
def roll1 (xs : List ℚ) : List ℚ :=
  match xs.getLast? with
  | none => []
  | some x => x :: xs.dropLast

/-- Python slice `a[-k:]` (the whole array when `k = 0` or `k ≥ length`). -/
def sliceLast (xs : List ℚ) (k : ℕ) : List ℚ :=
  if k = 0 then xs else xs.drop (xs.length - k)

/-- `TradeIntent(type=IntentType.HOLD)`: pydantic fills the default
size 1.0, which passes the `gt=0.0` validation. -/
def holdIntent : TradeIntent := ⟨IntentType.HOLD, 1⟩

/-- `CompetitionHailMary.on_bar`.  numpy float arithmetic is embedded as
rational arithmetic; the `print` diagnostic is side-effect-free on the
decision and dropped; `position_state` and `clock` are received but never
read, exactly as in the source. -/
def on_bar (cfg : Config) (ms : MarketState) (_ps : PositionState)
    (_ck : Clock) : TradeIntent :=
  let required_bars := max cfg.lookback cfg.slow_period + 10
  if ms.bar_count < required_bars then holdIntent
  else
    match ms.recent_bars required_bars with
    | none => holdIntent
    | some bars =>
      if bars.length < required_bars then holdIntent
      else
        let closes := bars.map (·.close)
        let highs := bars.map (·.high)
        let lows := bars.map (·.low)
        let opens := bars.map (·.open_)
        let fast_ema := ema closes cfg.fast_period
        let slow_ema := ema closes cfg.slow_period
        let _cross_up := idxNeg fast_ema 2 ≤ idxNeg slow_ema 2 ∧
          idxNeg slow_ema 1 < idxNeg fast_ema 1
        let _cross_down := idxNeg slow_ema 2 ≤ idxNeg fast_ema 2 ∧
          idxNeg fast_ema 1 < idxNeg slow_ema 1
        let tr1 := List.zipWith (fun h l => h - l) highs lows
        let tr2 := List.zipWith (fun h c => |h - c|) highs (roll1 closes)
        let tr3 := List.zipWith (fun l c => |l - c|) lows (roll1 closes)
        let tr := List.zipWith max tr1 (List.zipWith max tr2 tr3)
        let atr := mean (sliceLast tr cfg.lookback)
        let current_range := idxNeg highs 1 - idxNeg lows 1
        let _is_expansion := atr * cfg.atr_mult < current_range
        let rsi := calculate_rsi cfg closes
        let signal : IntentType :=
          if idxNeg slow_ema 1 < idxNeg fast_ema 1 then IntentType.BUY
          else IntentType.SELL
        let signal : IntentType :=
          if rsi < cfg.rsi_oversold ∧ idxNeg opens 1 < idxNeg closes 1 then
            IntentType.BUY
          else if cfg.rsi_overbought < rsi ∧ idxNeg closes 1 < idxNeg opens 1 then
            IntentType.SELL
          else signal
        ⟨signal, 1⟩

/-- State-passing form of the `on_bar` method: it returns the decision
together with the instance configuration, which the source mutates
nowhere (no attribute assignment occurs in `on_bar`). -/
def on_bar_s (cfg : Config) (ms : MarketState) (ps : PositionState)
    (ck : Clock) : Config × TradeIntent :=
  (cfg, on_bar cfg ms ps ck)

/-- Run a sequence of `on_bar` calls on one instance, threading the
instance state. -/
def run_calls (cfg : Config)
    (calls : List (MarketState × PositionState × Clock)) : Config :=
  calls.foldl (fun c i => (on_bar_s c i.1 i.2.1 i.2.2).1) cfg

end CompetitionHailMary

namespace IntentSink

theorem entry_data_getLast (u : String) :
    (u ++ ".json").data.getLast? = some 'n' := by
  rw [String.data_append]
  rw [List.getLast?_append_of_ne_nil u.data (by decide)]
  decide

theorem tmp_data_getLast (v : String) :
    (tmpName v).data.getLast? = some 'p' := by
  rw [tmpName, String.data_append]
  rw [List.getLast?_append_of_ne_nil (fname v).data (by decide)]
  decide

/-- An entry-format name is never the temporary file's name. -/
theorem entry_ne_tmpName (u v : String) : u ++ ".json" ≠ tmpName v := by
  intro h
  have h1 := entry_data_getLast u
  rw [h, tmp_data_getLast] at h1
  exact absurd (Option.some.inj h1) (by decide)

theorem fname_injective : Function.Injective fname := by
  intro a b hab
  have hd : a.data ++ ".json".data = b.data ++ ".json".data := by
    have := congrArg String.data hab
    rwa [fname, fname, String.data_append, String.data_append] at this
  exact String.ext (List.append_cancel_right hd)

end IntentSink

namespace IntentSink

/-- C1 counterexample: contrary to the claim, the temporary write location
used by `emit` lies inside the consumer-visible `pending` area, and an emit
interrupted right before the rename leaves the temporary file observable
there (a trace in `pending`). -/
theorem tmp_location_inside_pending_cex :
    (tmpPath "u0").area = QueueArea.pending ∧
      emitMid (fun _ => none) "u0" "x" (tmpName "u0") = some "x" := by
  refine ⟨rfl, ?_⟩
  simp [emitMid, fsWrite]

/-- C1 (amended): the temporary file is created inside the `pending`
directory, but its name (`token.json.tmp`) never matches the entry-name
format (`token.json`); hence an `emit` interrupted before the atomic rename
changes the content of no entry-format name in `pending` — no full,
truncated or half-written *entry* is ever observable. -/
theorem emit_interrupted_no_entry_trace (d : PendingDir) (u s n : String)
    (h : IsEntryName n) : emitMid d u s n = d n := by
  obtain ⟨v, rfl⟩ := h
  rw [emitMid, fsWrite]
  exact if_neg (entry_ne_tmpName v u)

/-- C1 amended-claim witness at a concrete interrupted emit. -/
theorem emit_interrupted_no_entry_trace_witness :
    IsEntryName "e.json" ∧
      emitMid (fun _ => none) "u0" "x" "e.json" = none :=
  ⟨⟨"e", rfl⟩, emit_interrupted_no_entry_trace (fun _ => none) "u0" "x" "e.json" ⟨"e", rfl⟩⟩

/-- C2: when the uuid token is fresh (neither the final entry name nor the
temporary name exists yet), a successful `emit` makes exactly one new entry
visible under `pending`: the entry `u.json` stores exactly the emitted
string, and every other name is unchanged. -/
theorem emit_success_exactly_one_new_entry (d : PendingDir) (u s : String)
    (_hfresh : d (fname u) = none) (htmp : d (tmpName u) = none) :
    emit d u s (fname u) = some s ∧
      ∀ n, n ≠ fname u → emit d u s n = d n := by
  constructor
  · rw [emit, fsRename]
    rw [if_pos rfl, emitMid, fsWrite, if_pos rfl]
  · intro n hn
    rw [emit, fsRename, if_neg hn]
    by_cases h : n = tmpName u
    · rw [if_pos h, h, htmp]
    · rw [if_neg h, emitMid, fsWrite, if_neg h]

/-- C2 witness: a concrete emit into an empty `pending` directory. -/
theorem emit_success_exactly_one_new_entry_witness :
    emit (fun _ => none) "a" "x" (fname "a") = some "x" ∧
      emit (fun _ => none) "a" "x" "other.json" = none := by
  have h := emit_success_exactly_one_new_entry (fun _ => none) "a" "x" rfl rfl
  exact ⟨h.1, h.2 "other.json" (by decide)⟩

/-- C8: every entry name is the uuid token followed by the fixed `.json`
suffix, and distinct uuid tokens (uuid4 collisions are negligible and are
modelled as an externally supplied stream of distinct tokens) yield
pairwise-distinct entry names. -/
theorem emit_entry_names_pairwise_distinct (us : List String)
    (h : us.Nodup) :
    (us.map fname).Nodup ∧ ∀ u, fname u = u ++ ".json" :=
  ⟨h.map fname_injective, fun _ => rfl⟩

/-- C8 witness: two concrete distinct tokens give distinct entry names. -/
theorem emit_entry_names_pairwise_distinct_witness :
    (["a", "b"].map fname).Nodup ∧ fname "a" = "a" ++ ".json" := by
  have h := emit_entry_names_pairwise_distinct ["a", "b"] (by decide)
  exact ⟨h.1, h.2 "a"⟩

end IntentSink

namespace IntentSerializer

theorem digitVal_digitChar : ∀ x : ℕ, x < 10 → digitVal (Nat.digitChar x) = x := by
  decide

theorem parse4_pad4 (m : ℕ) (h : m < 10000) : parse4 (pad4Chars m) = m := by
  have h1 := digitVal_digitChar (m / 1000 % 10) (Nat.mod_lt _ (by norm_num))
  have h2 := digitVal_digitChar (m / 100 % 10) (Nat.mod_lt _ (by norm_num))
  have h3 := digitVal_digitChar (m / 10 % 10) (Nat.mod_lt _ (by norm_num))
  have h4 := digitVal_digitChar (m % 10) (Nat.mod_lt _ (by norm_num))
  simp only [pad4Chars, parse4, h1, h2, h3, h4]
  omega

theorem natChars_reverse (w : ℕ) :
    (natChars w).reverse = (Nat.digits 10 w).map Nat.digitChar := by
  rw [natChars, ← List.map_reverse, List.reverse_reverse]

theorem natChars_reverse_digitVal (w : ℕ) :
    ((natChars w).reverse.map digitVal) = Nat.digits 10 w := by
  rw [natChars_reverse, List.map_map]
  have h : ∀ x ∈ Nat.digits 10 w, (digitVal ∘ Nat.digitChar) x = x := by
    intro x hx
    exact digitVal_digitChar x (Nat.digits_lt_base (by norm_num) hx)
  rw [List.map_congr_left h]
  exact List.map_id _

end IntentSerializer

namespace IntentSerializer

theorem isoformat_data_aware (w : ℕ) (o : ℤ) :
    (isoformat ⟨w, some o⟩).data =
      natChars w ++ (if o < 0 then '-' else '+') :: pad4Chars o.natAbs := rfl

theorem pad4_reverse_length (m : ℕ) : (pad4Chars m).reverse.length = 4 := by
  simp [pad4Chars]

theorem rev_decomp (w : ℕ) (c : Char) (p : List Char) :
    (natChars w ++ c :: p).reverse = (p.reverse ++ [c]) ++ (natChars w).reverse := by
  rw [List.reverse_append, List.reverse_cons]

theorem decode_get4 (w m : ℕ) (c : Char) :
    (((pad4Chars m).reverse ++ [c]) ++ (natChars w).reverse)[4]? = some c := by
  rw [List.getElem?_append]
  rw [if_pos (by simp [pad4Chars])]
  rw [List.getElem?_append_right (le_of_eq (pad4_reverse_length m))]
  rw [pad4_reverse_length m]
  rfl

theorem decode_take4 (w m : ℕ) (c : Char) :
    ((((pad4Chars m).reverse ++ [c]) ++ (natChars w).reverse).take 4).reverse
      = pad4Chars m := by
  rw [List.append_assoc, ← pad4_reverse_length m, List.take_left,
    List.reverse_reverse]

theorem decode_drop5 (w m : ℕ) (c : Char) :
    (((pad4Chars m).reverse ++ [c]) ++ (natChars w).reverse).drop 5
      = (natChars w).reverse := by
  have h5 : ((pad4Chars m).reverse ++ [c]).length = 5 := by simp [pad4Chars]
  rw [← h5, List.drop_left]

theorem decode_concrete (w m : ℕ) (c : Char) (hc : c = '+' ∨ c = '-')
    (hm : m < 10000) (s : String)
    (hs : s.data = natChars w ++ c :: pad4Chars m) :
    decodeIsoInstant s =
      some (instantMicros w (if c = '-' then -(m : ℤ) else (m : ℤ))) := by
  have hrev : s.data.reverse = ((pad4Chars m).reverse ++ [c]) ++ (natChars w).reverse := by
    rw [hs, rev_decomp]
  simp only [decodeIsoInstant, hrev, decode_get4, Option.some_bind]
  rw [if_pos hc]
  simp only [decode_drop5, decode_take4, natChars_reverse_digitVal,
    Nat.ofDigits_digits, parse4_pad4 m hm]

/-- C4 (amended): `serialize_intent` encodes the timestamp via
`datetime.isoformat()`, so only a timezone-aware timestamp gets a single
fixed, timezone-explicit representation; for every timezone-aware
timestamp the encoding carries an explicit UTC-offset suffix and
re-decoding reproduces the identical instant (wall clock minus offset).
A naive timestamp encodes with no timezone marker at all — see the
counterexample. -/
theorem decode_isoformat_aware_instant (d : PyDatetime) (o : ℤ)
    (ho : d.utcOffsetMinutes = some o) (hrange : o.natAbs < 1440) :
    decodeIsoInstant (isoformat d) = some (instantMicros d.wallMicros o) := by
  obtain ⟨w, tz⟩ := d
  simp only at ho
  subst ho
  show decodeIsoInstant (isoformat ⟨w, some o⟩) = some (instantMicros w o)
  have hm : o.natAbs < 10000 := lt_trans hrange (by norm_num)
  by_cases hneg : o < 0
  · have hs : (isoformat ⟨w, some o⟩).data = natChars w ++ '-' :: pad4Chars o.natAbs := by
      rw [isoformat_data_aware, if_pos hneg]
    rw [decode_concrete w o.natAbs '-' (Or.inr rfl) hm _ hs]
    have habs : -((o.natAbs : ℤ)) = o := by omega
    rw [if_pos rfl, habs]
  · have hs : (isoformat ⟨w, some o⟩).data = natChars w ++ '+' :: pad4Chars o.natAbs := by
      rw [isoformat_data_aware, if_neg hneg]
    rw [decode_concrete w o.natAbs '+' (Or.inl rfl) hm _ hs]
    have habs : ((o.natAbs : ℤ)) = o := by omega
    rw [if_neg (by decide : ¬('+' = '-')), habs]

/-- C4 amended-claim witness: a concrete timezone-aware timestamp
(UTC+01:30) round-trips to its exact instant. -/
theorem decode_isoformat_aware_instant_witness :
    decodeIsoInstant (isoformat ⟨1000, some 90⟩) = some (instantMicros 1000 90) :=
  decode_isoformat_aware_instant ⟨1000, some 90⟩ 90 rfl (by norm_num)

/-- C4 counterexample: a valid `ExecutionIntent` whose (naive, tzinfo-free)
timestamp serializes with no timezone marker — the encoded timestamp
determines no instant, refuting the claim that every valid intent's
timestamp encoding is timezone-explicit and instant-preserving. -/
theorem timestamp_not_tz_explicit_cex :
    jobjLookup
        (intentDict ⟨"id1", ⟨123, none⟩, "EURUSD", Side.BUY, OrderType.MARKET,
          1, none, none, "GTC", "h", Mode.PAPER⟩) "timestamp"
      = some (JVal.str (isoformat ⟨123, none⟩)) ∧
    decodeIsoInstant (isoformat ⟨123, none⟩) = none := by
  constructor
  · rfl
  · have hiso : isoformat ⟨123, none⟩ = String.mk ['1', '2', '3'] := by
      have hd : Nat.digits 10 123 = [3, 2, 1] := by simp
      rw [isoformat]
      simp only [natChars, hd]
      rfl
    rw [hiso]
    rfl

end IntentSerializer

namespace IntentSerializer

/-- C5: the serialized intent is built from the ordered field dict that
`serialize_intent` hands to `json.dumps`: each of the eleven fields occurs
exactly once, in the fixed order intent_id, timestamp, symbol, side,
order_type, quantity, stop_loss, take_profit, time_in_force, policy_hash,
mode; an absent `stop_loss` / `take_profit` is encoded as the explicit
JSON null marker, a present one as its numeric value, and the null marker
is distinct from every numeric value (never a sentinel number). -/
theorem serialize_intent_fields (i : ExecutionIntent) :
    jobjKeys (intentDict i) =
      ["intent_id", "timestamp", "symbol", "side", "order_type", "quantity",
       "stop_loss", "take_profit", "time_in_force", "policy_hash", "mode"] ∧
    (jobjKeys (intentDict i)).Nodup ∧
    (i.stop_loss = none → jobjLookup (intentDict i) "stop_loss" = some JVal.null) ∧
    (∀ q, i.stop_loss = some q →
      jobjLookup (intentDict i) "stop_loss" = some (JVal.num q)) ∧
    (i.take_profit = none → jobjLookup (intentDict i) "take_profit" = some JVal.null) ∧
    (∀ q, i.take_profit = some q →
      jobjLookup (intentDict i) "take_profit" = some (JVal.num q)) ∧
    (∀ q : ℚ, JVal.null ≠ JVal.num q) := by
  refine ⟨rfl, ?_, ?_, ?_, ?_, ?_, fun q h => by cases h⟩
  · have hk : jobjKeys (intentDict i) =
        ["intent_id", "timestamp", "symbol", "side", "order_type", "quantity",
         "stop_loss", "take_profit", "time_in_force", "policy_hash", "mode"] := rfl
    rw [hk]
    decide
  · intro h
    rw [show jobjLookup (intentDict i) "stop_loss" = some (optNum i.stop_loss) from rfl, h]
    rfl
  · intro q h
    rw [show jobjLookup (intentDict i) "stop_loss" = some (optNum i.stop_loss) from rfl, h]
    rfl
  · intro h
    rw [show jobjLookup (intentDict i) "take_profit" = some (optNum i.take_profit) from rfl, h]
    rfl
  · intro q h
    rw [show jobjLookup (intentDict i) "take_profit" = some (optNum i.take_profit) from rfl, h]
    rfl

/-- C5 witness: a concrete intent with `stop_loss` absent and
`take_profit` present. -/
theorem serialize_intent_fields_witness :
    jobjLookup
        (intentDict ⟨"id2", ⟨0, none⟩, "EURUSD", Side.BUY, OrderType.MARKET,
          1, none, some 5, "GTC", "h", Mode.PAPER⟩) "stop_loss"
      = some JVal.null ∧
    jobjLookup
        (intentDict ⟨"id2", ⟨0, none⟩, "EURUSD", Side.BUY, OrderType.MARKET,
          1, none, some 5, "GTC", "h", Mode.PAPER⟩) "take_profit"
      = some (JVal.num 5) := by
  have h := serialize_intent_fields ⟨"id2", ⟨0, none⟩, "EURUSD", Side.BUY,
    OrderType.MARKET, 1, none, some 5, "GTC", "h", Mode.PAPER⟩
  exact ⟨h.2.2.1 rfl, h.2.2.2.2.2.1 5 rfl⟩

end IntentSerializer

namespace Hypotheses

/-- Errors raised by `market_state.current_bar()` are swallowed by the
hook's `try/except`. -/
theorem log_signal_intent_swallows_bar_error (self : HypSelf)
    (intent : Option TradeIntent) (ms : MarketState) (e : String)
    (h : ms.current_bar = Except.error e) :
    log_signal_intent self intent ms = Except.ok () := by
  rw [log_signal_intent.eq_def]
  split
  · rfl
  · cases intent with
    | none => rfl
    | some i =>
      by_cases hh : i.is_hold
      · simp only [hh, if_pos]
      · simp only [hh, Bool.false_eq_true, if_false, h]

/-- C3 counterexample: with diagnostics enabled, a non-HOLD decision and a
current bar whose timestamp rendering raises, the error escapes the
diagnostic hook and the wrapped `on_bar` propagates it instead of the
decision — refuting that every error inside the logging step is swallowed. -/
theorem diagnostic_error_propagates_cex :
    wrapped_on_bar ⟨true⟩ (Except.ok (some ⟨IntentType.BUY, 1⟩))
        ⟨24, fun _ => none, Except.ok ⟨1, 1, 1, 1, "EURUSD", Except.error "ts boom"⟩⟩
      = Except.error "ts boom" := rfl

/-- C3 (amended): the wrapped `on_bar` returns the inner decision
unchanged whenever the diagnostic hook completes without raising, and an
error raised while fetching the current bar is always swallowed by the
hook; an error raised later inside the hook (e.g. by the timestamp
rendering), however, propagates to the caller — see the counterexample. -/
theorem wrapped_on_bar_hook_contained (self : HypSelf)
    (intent : Option TradeIntent) (ms : MarketState)
    (h : (∃ e, ms.current_bar = Except.error e) ∨
      log_signal_intent self intent ms = Except.ok ()) :
    wrapped_on_bar self (Except.ok intent) ms = Except.ok intent := by
  have hok : log_signal_intent self intent ms = Except.ok () := by
    rcases h with ⟨e, he⟩ | h
    · exact log_signal_intent_swallows_bar_error self intent ms e he
    · exact h
  rw [wrapped_on_bar, hok]

/-- C3 amended-claim witness: diagnostics enabled, current bar raising. -/
theorem wrapped_on_bar_hook_contained_witness :
    wrapped_on_bar ⟨true⟩ (Except.ok (some ⟨IntentType.BUY, 1⟩))
        ⟨24, fun _ => none, Except.error "bar down"⟩
      = Except.ok (some ⟨IntentType.BUY, 1⟩) :=
  wrapped_on_bar_hook_contained ⟨true⟩ (some ⟨IntentType.BUY, 1⟩)
    ⟨24, fun _ => none, Except.error "bar down"⟩ (Or.inl ⟨"bar down", rfl⟩)

/-- C7: a `TradeIntent` is frozen — any in-place field assignment raises —
and every constructible `TradeIntent` whose kind is not HOLD has size
strictly greater than zero (the `gt=0.0` validation in fact enforces this
for every kind). -/
theorem trade_intent_frozen_and_positive :
    (∀ (t : TradeIntent) (v : IntentType),
      t.setType v = Except.error "Instance is frozen") ∧
    (∀ (t : TradeIntent) (v : ℚ),
      t.setSize v = Except.error "Instance is frozen") ∧
    (∀ (ty : IntentType) (s : ℚ) (t : TradeIntent),
      TradeIntent.create ty s = some t → t.type ≠ IntentType.HOLD → 0 < t.size) := by
  refine ⟨fun t v => rfl, fun t v => rfl, ?_⟩
  intro ty s t hc _hty
  rw [TradeIntent.create] at hc
  by_cases hs : 0 < s
  · rw [if_pos hs] at hc
    cases hc
    exact hs
  · rw [if_neg hs] at hc
    cases hc

/-- C7 witness: a concrete constructible BUY intent. -/
theorem trade_intent_frozen_and_positive_witness :
    TradeIntent.create IntentType.BUY 1 = some ⟨IntentType.BUY, 1⟩ ∧
    0 < ((⟨IntentType.BUY, 1⟩ : TradeIntent)).size := by
  refine ⟨by decide, ?_⟩
  exact trade_intent_frozen_and_positive.2.2 IntentType.BUY 1
    ⟨IntentType.BUY, 1⟩ (by decide) (by decide)

end Hypotheses

namespace CompetitionHailMary

open Hypotheses

/-- C6: whenever the bar history is insufficient — the bar count is below
`max(lookback, slow_period) + 10`, or `recent_bars` yields nothing, or it
yields fewer bars than requested — `on_bar` returns a HOLD decision (and,
being a total function built only from total operations, raises no
error). -/
theorem on_bar_insufficient_data_holds (cfg : Config) (ms : MarketState)
    (ps : PositionState) (ck : Clock)
    (h : ms.bar_count < max cfg.lookback cfg.slow_period + 10 ∨
      ms.recent_bars (max cfg.lookback cfg.slow_period + 10) = none ∨
      ∃ bars, ms.recent_bars (max cfg.lookback cfg.slow_period + 10) = some bars ∧
        bars.length < max cfg.lookback cfg.slow_period + 10) :
    on_bar cfg ms ps ck = holdIntent := by
  simp only [on_bar]
  split
  · rfl
  rename_i h1
  split
  · rfl
  rename_i bars hb2
  split
  · rfl
  rename_i hlen2
  rcases h with h | h | ⟨bars2, hb3, hlen3⟩
  · exact absurd h h1
  · rw [h] at hb2
    cases hb2
  · rw [hb3] at hb2
    cases Option.some.inj hb2
    exact absurd hlen3 hlen2

/-- C6 witness: the default configuration with an empty history. -/
theorem on_bar_insufficient_data_holds_witness :
    on_bar {} ⟨0, fun _ => none, Except.error "no bar"⟩ ⟨0⟩ ⟨0⟩ = holdIntent :=
  on_bar_insufficient_data_holds {} ⟨0, fun _ => none, Except.error "no bar"⟩
    ⟨0⟩ ⟨0⟩ (Or.inl (by decide))

/-- `on_bar` assigns no instance attribute, so any call sequence leaves
the instance configuration unchanged. -/
theorem run_calls_id (cfg : Config)
    (calls : List (MarketState × PositionState × Clock)) :
    run_calls cfg calls = cfg := by
  induction calls generalizing cfg with
  | nil => rfl
  | cons c cs ih => exact ih cfg

/-- C9: on one instance (one constructor configuration), after any
sequence of interleaved `on_bar` calls, a call with given
snapshot/position/clock inputs returns exactly the decision (same kind,
same size) a fresh call with the same inputs returns, and the instance
state is unchanged — decisions are a pure function of inputs plus
configuration. -/
theorem on_bar_deterministic (cfg : Config)
    (calls : List (MarketState × PositionState × Clock))
    (ms : MarketState) (ps : PositionState) (ck : Clock) :
    (on_bar_s (run_calls cfg calls) ms ps ck).2 = (on_bar_s cfg ms ps ck).2 ∧
    (on_bar_s cfg ms ps ck).1 = cfg := by
  rw [run_calls_id]
  exact ⟨rfl, rfl⟩

/-- C10: whenever the history is sufficient — bar count at least
`max(lookback, slow_period) + 10` and at least that many bars returned —
`on_bar` returns a decision with size exactly 1.0 whose kind is BUY or
SELL: never HOLD, never CLOSE, never absent. -/
theorem on_bar_sufficient_data_buy_or_sell (cfg : Config) (ms : MarketState)
    (ps : PositionState) (ck : Clock) (bars : List Bar)
    (h1 : ¬ ms.bar_count < max cfg.lookback cfg.slow_period + 10)
    (h2 : ms.recent_bars (max cfg.lookback cfg.slow_period + 10) = some bars)
    (h3 : ¬ bars.length < max cfg.lookback cfg.slow_period + 10) :
    (on_bar cfg ms ps ck).size = 1 ∧
      ((on_bar cfg ms ps ck).type = IntentType.BUY ∨
        (on_bar cfg ms ps ck).type = IntentType.SELL) := by
  simp only [on_bar, h2]
  rw [if_neg h1, if_neg h3]
  constructor
  · rfl
  · split
    · exact Or.inl rfl
    · split
      · exact Or.inr rfl
      · split
        · exact Or.inl rfl
        · exact Or.inr rfl

end CompetitionHailMary

namespace CompetitionHailMary

open Hypotheses

/-- C10 witness: default configuration and a 24-bar flat history. -/
theorem on_bar_sufficient_data_buy_or_sell_witness :
    (on_bar {}
        ⟨24, fun n => if n = 24 then
            some (List.replicate 24 ⟨1, 1, 1, 1, "EURUSD", Except.ok "t"⟩) else none,
          Except.ok ⟨1, 1, 1, 1, "EURUSD", Except.ok "t"⟩⟩ ⟨0⟩ ⟨0⟩).size = 1 ∧
    ((on_bar {}
        ⟨24, fun n => if n = 24 then
            some (List.replicate 24 ⟨1, 1, 1, 1, "EURUSD", Except.ok "t"⟩) else none,
          Except.ok ⟨1, 1, 1, 1, "EURUSD", Except.ok "t"⟩⟩ ⟨0⟩ ⟨0⟩).type = IntentType.BUY ∨
      (on_bar {}
        ⟨24, fun n => if n = 24 then
            some (List.replicate 24 ⟨1, 1, 1, 1, "EURUSD", Except.ok "t"⟩) else none,
          Except.ok ⟨1, 1, 1, 1, "EURUSD", Except.ok "t"⟩⟩ ⟨0⟩ ⟨0⟩).type = IntentType.SELL) :=
  on_bar_sufficient_data_buy_or_sell {}
    ⟨24, fun n => if n = 24 then
        some (List.replicate 24 ⟨1, 1, 1, 1, "EURUSD", Except.ok "t"⟩) else none,
      Except.ok ⟨1, 1, 1, 1, "EURUSD", Except.ok "t"⟩⟩ ⟨0⟩ ⟨0⟩
    (List.replicate 24 ⟨1, 1, 1, 1, "EURUSD", Except.ok "t"⟩)
    (by decide) rfl (by decide)

end CompetitionHailMary
